import Mathlib

/-!
Shallow embedding of `src/main.py` (a PyQt front-end over the yt-dlp download
engine) and proofs about the job/progress/completion contract it implements.

Python strings are modelled as `List Char`; Python's `str.strip` becomes
`pyStrip`, and f-string interpolation of integers becomes `natChars`/`intChars`
(decimal rendering).  Engine progress payloads (the dictionaries yt-dlp passes
to progress hooks) are modelled as a record of optional fields; a field that is
absent from the dictionary, or holds a value of the wrong type, is `none`.
The external engine itself is opaque: one invocation of it is modelled as the
list of callback/logger actions it performs plus an optional exception message.
-/

namespace YTD

abbrev Chars := List Char

/-- Python `str.lstrip()` restricted to whitespace. -/
def lstrip (s : Chars) : Chars := s.dropWhile Char.isWhitespace

/-- Python `str.rstrip()` restricted to whitespace. -/
def rstrip (s : Chars) : Chars := (s.reverse.dropWhile Char.isWhitespace).reverse

/-- Python `str.strip()`: drop leading and trailing whitespace. -/
def pyStrip (s : Chars) : Chars := lstrip (rstrip s)

/-- Fuel-bounded decimal rendering; the fuel is structural so that the
function reduces inside the kernel.  With fuel above `n` it renders every
digit of `n`. -/
def natCharsAux : Nat → Nat → Chars
  | 0, _ => []
  | fuel + 1, n =>
      if n < 10 then [Nat.digitChar n]
      else natCharsAux fuel (n / 10) ++ [Nat.digitChar (n % 10)]

/-- Decimal rendering of a natural number, as Python `str(n)` / f-string
interpolation produces it. -/
def natChars (n : Nat) : Chars := natCharsAux (n + 1) n

/-- Decimal rendering of an integer, as Python `str(i)` produces it
(a leading minus sign for negative values). -/
def intChars (i : Int) : Chars :=
  if i < 0 then '-' :: natChars i.natAbs else natChars i.toNat

/-- Boolean check that `p` is an initial segment of `s`. -/
def startsWithL : Chars → Chars → Bool
  | [], _ => true
  | _ :: _, [] => false
  | p :: ps, c :: cs => p = c && startsWithL ps cs

/-- Boolean check that `p` is a final segment of `s`. -/
def endsWithL (p s : Chars) : Bool := startsWithL p.reverse s.reverse

/-- The `info_dict` metadata nested in a progress payload; only the two
playlist fields read by `_progress_hook` are relevant.  `none` models a
missing field or a non-`int` value (the code guards with `isinstance`). -/
structure InfoDict where
  playlist_index : Option Int
  playlist_count : Option Int
deriving DecidableEq, Repr

instance : Inhabited InfoDict := ⟨⟨none, none⟩⟩

/-- One progress-callback payload dictionary from the engine, restricted to
the keys `_progress_hook` reads.  Byte counts and speed are naturals
(the engine reports non-negative sizes); `none` models a missing key or a
`None` value. -/
structure ProgressPayload where
  status : Option Chars
  total_bytes : Option Nat
  total_bytes_estimate : Option Nat
  downloaded_bytes : Option Nat
  speed : Option Nat
  eta : Option Int
  info_dict : Option InfoDict
deriving DecidableEq, Repr

/-- The value of `d.get("total_bytes") or d.get("total_bytes_estimate") or 0`:
Python's `or` treats both `None` and `0` as falsy, so a missing or zero
`total_bytes` falls through to the estimate, and a missing or zero estimate
yields `0`. -/
def totalOf (d : ProgressPayload) : Nat :=
  if d.total_bytes.getD 0 ≠ 0 then d.total_bytes.getD 0 else d.total_bytes_estimate.getD 0

/-- The value of `d.get("downloaded_bytes") or 0`. -/
def downloadedOf (d : ProgressPayload) : Nat := d.downloaded_bytes.getD 0

/-- The `[index/count] ` playlist marker (with its trailing space) built by
both branches of `_progress_hook`: present exactly when `playlist_index` and
`playlist_count` are ints and the count is positive. -/
def playlistMark (info : Option InfoDict) : Chars :=
  let i := info.getD default
  match i.playlist_index, i.playlist_count with
  | some pi, some pc =>
      if pc > 0 then '[' :: (intChars pi ++ '/' :: (intChars pc ++ [']', ' '])) else []
  | _, _ => []

/-- The `f"{int(speed/1024)} KB/s "` fragment, appended only when `speed` is
truthy (present and nonzero). -/
def speedPart (speed : Option Nat) : Chars :=
  match speed with
  | some s => if s ≠ 0 then natChars (s / 1024) ++ " KB/s ".toList else []
  | none => []

/-- The `f"ETA {eta}s"` fragment, appended whenever `eta` is not `None`
(note: an ETA of `0` is still rendered). -/
def etaPart (eta : Option Int) : Chars :=
  match eta with
  | some e => "ETA ".toList ++ intChars e ++ ['s']
  | none => []

/-- `DownloadWorker._progress_hook` (src/main.py lines 61-87): on a
`"downloading"` payload it emits one progress signal with the computed
percent and the stripped description; on a `"finished"` payload it emits
percent `100` with the merge-pending marker; on any other status it emits
nothing.  The result is `some (percent, desc)` when `self.progress.emit`
fires, else `none`. -/
def progress_hook (d : ProgressPayload) : Option (Nat × Chars) :=
  if d.status = some "downloading".toList then
    let total := totalOf d
    let downloaded := downloadedOf d
    let percent := if total ≠ 0 then downloaded * 100 / total else 0
    some (percent, pyStrip (playlistMark d.info_dict ++ speedPart d.speed ++ etaPart d.eta))
  else if d.status = some "finished".toList then
    some (100, pyStrip (playlistMark d.info_dict ++ "병합 중".toList))
  else
    none

/-- One download job, as carried by a `DownloadWorker` instance
(url, output_dir, ffmpeg_available). -/
structure Job where
  url : Chars
  output_dir : Chars
  ffmpeg_available : Bool
deriving DecidableEq, Repr

/-- The yt-dlp option dictionary built by `DownloadWorker.run`
(src/main.py lines 91-108), restricted to the non-callback entries.
`merge_output_format = none` models the key being absent. -/
structure YdlOpts where
  outtmpl : Chars
  ignoreerrors : Bool
  merge_output_format : Option Chars
  format : Chars
deriving DecidableEq, Repr

/-- The `ydl_opts` dictionary `DownloadWorker.run` passes to the engine, as a
function of the output directory and the ffmpeg capability flag.
`os.path.join` is modelled with a `/` separator. -/
def buildOpts (output_dir : Chars) (ffmpeg_available : Bool) : YdlOpts :=
  let outtmpl := output_dir ++ '/' :: "%(title)s.%(ext)s".toList
  if ffmpeg_available then
    { outtmpl := outtmpl
      ignoreerrors := true
      merge_output_format := some "mp4".toList
      format := "bestvideo[ext=mp4]+bestaudio[ext=m4a]/best[ext=mp4]/best".toList }
  else
    { outtmpl := outtmpl
      ignoreerrors := true
      merge_output_format := none
      format := "best[ext=mp4]/best".toList }

/-- One observable action the opaque engine performs during its blocking
`download` call: invoking the progress hook, or calling one of the three
logger methods. -/
inductive EngineAction where
  | callHook (d : ProgressPayload)
  | logDebug (msg : Chars)
  | logWarning (msg : Chars)
  | logError (msg : Chars)
deriving DecidableEq, Repr

/-- One invocation of the opaque engine: the callback/logger actions it
performed (in order, up to the point it returned or raised) and, when it
raised, `some` of the exception's string form `str(e)`. -/
structure EngineRun where
  actions : List EngineAction
  failure : Option Chars
deriving DecidableEq, Repr

/-- One Qt signal emitted by `DownloadWorker`:
`progress(int, str)`, `log(str)`, `finished()` or `error(str)`. -/
inductive WorkerEvent where
  | progress (percent : Nat) (desc : Chars)
  | log (line : Chars)
  | finished
  | error (msg : Chars)
deriving DecidableEq, Repr

/-- The worker signals produced by one engine action: the progress hook emits
at most one `progress` signal; the logger bridge (`_build_logger`,
src/main.py lines 38-59) forwards debug lines verbatim and tags warning and
error lines with the Korean markers. -/
def actionEvents : EngineAction → List WorkerEvent
  | .callHook d =>
      match progress_hook d with
      | some (p, a) => [.progress p a]
      | none => []
  | .logDebug m => [.log m]
  | .logWarning m => [.log ("경고: ".toList ++ m)]
  | .logError m => [.log ("오류: ".toList ++ m)]

/-- `DownloadWorker.run` (src/main.py lines 89-114): the whole body sits in a
single `try`; it logs the initial "collecting info" line, the engine performs
its actions, and then exactly one terminal signal follows — `finished` when
the blocking `download` call returned, `error (str e)` when it raised. -/
def run (eng : EngineRun) : List WorkerEvent :=
  WorkerEvent.log "정보 수집 중".toList ::
    (eng.actions.flatMap actionEvents ++
      [match eng.failure with
       | none => WorkerEvent.finished
       | some m => WorkerEvent.error m])

/-- Whether a worker signal is terminal (ends the job). -/
def isTerminal : WorkerEvent → Bool
  | .finished => true
  | .error _ => true
  | _ => false

/-- Number of terminal signals in an event list. -/
def countTerminal (es : List WorkerEvent) : Nat := (es.filter isTerminal).length

/-- The UI-visible state of `MainWindow` that the claims speak about:
the start button, the progress bar value (the raw value passed to
`setValue`), the status label, the log view's lines, and whether the
`thread`/`worker` fields hold a live job (`job_active`). -/
structure UIState where
  start_enabled : Bool
  progress_value : Nat
  status_text : Chars
  log_lines : List Chars
  job_active : Bool
deriving DecidableEq, Repr

/-- `MainWindow.on_progress` (src/main.py lines 280-282). -/
def on_progress (s : UIState) (v : Nat) (desc : Chars) : UIState :=
  { s with
    progress_value := v
    status_text :=
      "진행률 ".toList ++ natChars v ++ ['%'] ++
        (if desc ≠ [] then " - ".toList ++ desc else []) }

/-- `MainWindow.append_log` (src/main.py lines 284-285). -/
def append_log (s : UIState) (t : Chars) : UIState :=
  { s with log_lines := s.log_lines ++ [t] }

/-- `MainWindow.on_finished` (src/main.py lines 287-295): final log line,
status text, re-enable the start button, and release the thread/worker
handles when present. -/
def on_finished (s : UIState) : UIState :=
  let s1 := append_log s "완료".toList
  let s2 := { s1 with status_text := "완료".toList, start_enabled := true }
  if s2.job_active then { s2 with job_active := false } else s2

/-- `MainWindow.on_error` (src/main.py lines 297-305). -/
def on_error (s : UIState) (m : Chars) : UIState :=
  let s1 := append_log s ("오류: ".toList ++ m)
  let s2 := { s1 with status_text := "오류".toList, start_enabled := true }
  if s2.job_active then { s2 with job_active := false } else s2

/-- The slot each worker signal is wired to in `on_start`
(src/main.py lines 274-277). -/
def dispatch (s : UIState) : WorkerEvent → UIState
  | .progress v d => on_progress s v d
  | .log t => append_log s t
  | .finished => on_finished s
  | .error m => on_error s m

/-- Result of one click of the start button: the job started (if any), the
warning dialog shown (if any), and the window state afterwards. -/
structure StartOutcome where
  job : Option Job
  warning : Option Chars
  state : UIState
deriving DecidableEq, Repr

/-- `MainWindow.on_start` (src/main.py lines 254-278).  `isdir` abstracts
`os.path.isdir` (the filesystem); `ffmpeg_available` is the capability flag
probed at window construction.  Invalid input shows a warning dialog and
returns with the state untouched; valid input disables the start button,
resets the progress bar, clears the log view, and launches one worker. -/
def on_start (isdir : Chars → Bool) (ffmpeg_available : Bool)
    (urlText pathText : Chars) (s : UIState) : StartOutcome :=
  let url := pyStrip urlText
  let output_dir := pyStrip pathText
  if url = [] then
    { job := none, warning := some "URL을 입력하세요.".toList, state := s }
  else if output_dir = [] then
    { job := none, warning := some "다운로드 폴더를 선택하세요.".toList, state := s }
  else if ¬ isdir output_dir then
    { job := none, warning := some "유효한 폴더가 아닙니다.".toList, state := s }
  else
    { job := some { url := url, output_dir := output_dir, ffmpeg_available := ffmpeg_available }
      warning := none
      state :=
        { s with
          start_enabled := false
          progress_value := 0
          status_text := "시작 중".toList
          log_lines := []
          job_active := true } }

/-- Number of events in `es` whose dispatch flips the start button from
disabled to enabled, starting from state `s`. -/
def countEnables : UIState → List WorkerEvent → Nat
  | _, [] => 0
  | s, e :: es =>
      (if s.start_enabled = false ∧ (dispatch s e).start_enabled = true then 1 else 0) +
        countEnables (dispatch s e) es

/-! Helper lemmas about the string operations. -/

theorem lstrip_cons_of_not_ws {c : Char} (t : Chars) (hc : c.isWhitespace = false) :
    lstrip (c :: t) = c :: t := by
  simp [lstrip, List.dropWhile_cons, hc]

theorem rstrip_cons_of_not_ws {c : Char} (t : Chars) (hc : c.isWhitespace = false) :
    rstrip (c :: t) = c :: rstrip t := by
  unfold rstrip
  rw [show (c :: t) = [c] ++ t by rfl, List.reverse_append, List.dropWhile_append]
  split
  · next h =>
      rw [List.isEmpty_iff] at h
      simp [h, List.dropWhile_cons, hc, List.reverse_cons]
  · next h =>
      simp [List.reverse_append]

theorem rstrip_concat_of_not_ws {c : Char} (x : Chars) (hc : c.isWhitespace = false) :
    rstrip (x ++ [c]) = x ++ [c] := by
  unfold rstrip
  rw [List.reverse_append]
  simp [List.dropWhile_cons, hc]

theorem pyStrip_cons_of_not_ws {c : Char} (t : Chars) (hc : c.isWhitespace = false) :
    pyStrip (c :: t) = c :: rstrip t := by
  rw [pyStrip, rstrip_cons_of_not_ws t hc, lstrip_cons_of_not_ws _ hc]

theorem rstrip_marked (x s : Chars) {c : Char} (hc : c.isWhitespace = false) :
    ∃ t, rstrip ((x ++ [c]) ++ s) = (x ++ [c]) ++ t := by
  unfold rstrip
  rw [List.reverse_append, List.dropWhile_append]
  split
  · refine ⟨[], ?_⟩
    rw [List.reverse_append]
    simp [List.dropWhile_cons, hc]
  · refine ⟨(List.dropWhile Char.isWhitespace s.reverse).reverse, ?_⟩
    rw [List.reverse_append, List.reverse_append]
    simp [List.dropWhile_cons, hc]

theorem startsWithL_append (p t : Chars) : startsWithL p (p ++ t) = true := by
  induction p with
  | nil => rfl
  | cons c cs ih => simpa [startsWithL] using ih

theorem startsWithL_cons_of_ne {c c' : Char} (h : c ≠ c') (t : Chars) :
    startsWithL [c] (c' :: t) = false := by
  simp [startsWithL, h]

theorem endsWithL_append (p x : Chars) : endsWithL p (x ++ p) = true := by
  unfold endsWithL
  rw [List.reverse_append]
  exact startsWithL_append p.reverse x.reverse

theorem natCharsAux_head (fuel : Nat) :
    ∀ n, n < fuel → ∃ k t, k < 10 ∧ natCharsAux fuel n = Nat.digitChar k :: t := by
  induction fuel with
  | zero => intro n hn; omega
  | succ f ih =>
      intro n hn
      rw [natCharsAux]
      split
      · next h => exact ⟨n, [], h, rfl⟩
      · next h =>
        have hn0 : 0 < n := by omega
        have hlt : n / 10 < f := by
          have h1 : n / 10 < n := Nat.div_lt_self hn0 (by norm_num)
          omega
        obtain ⟨k, t, hk, ht⟩ := ih (n / 10) hlt
        exact ⟨k, t ++ [Nat.digitChar (n % 10)], hk, by rw [ht]; rfl⟩

theorem natChars_head (n : Nat) : ∃ k t, k < 10 ∧ natChars n = Nat.digitChar k :: t :=
  natCharsAux_head (n + 1) n (Nat.lt_succ_self n)

theorem digitChar_facts : ∀ k, k < 10 →
    Nat.digitChar k ≠ '[' ∧ (Nat.digitChar k).isWhitespace = false := by decide

theorem natChars_head_not_bracket (n : Nat) :
    ∃ c t, natChars n = c :: t ∧ c ≠ '[' ∧ c.isWhitespace = false := by
  obtain ⟨k, t, hk, ht⟩ := natChars_head n
  exact ⟨Nat.digitChar k, t, ht, (digitChar_facts k hk).1, (digitChar_facts k hk).2⟩

/-! Helper lemmas about worker events, terminal counting and UI dispatch. -/

theorem countTerminal_append (xs ys : List WorkerEvent) :
    countTerminal (xs ++ ys) = countTerminal xs + countTerminal ys := by
  simp [countTerminal, List.filter_append]

theorem actionEvents_not_terminal (a : EngineAction) :
    ∀ e ∈ actionEvents a, isTerminal e = false := by
  cases a with
  | callHook d =>
      cases h : progress_hook d with
      | none => simp [actionEvents, h]
      | some pa =>
          obtain ⟨p, s⟩ := pa
          simp [actionEvents, h, isTerminal]
  | logDebug m => simp [actionEvents, isTerminal]
  | logWarning m => simp [actionEvents, isTerminal]
  | logError m => simp [actionEvents, isTerminal]

theorem countTerminal_eq_zero_of_not_terminal (es : List WorkerEvent)
    (h : ∀ e ∈ es, isTerminal e = false) : countTerminal es = 0 := by
  induction es with
  | nil => rfl
  | cons e rest ih =>
      have he := h e (List.mem_cons_self e rest)
      have hr := ih (fun x hx => h x (List.mem_cons_of_mem e hx))
      simp [countTerminal, List.filter_cons, he] at hr ⊢
      exact hr

theorem countTerminal_flatMap (acts : List EngineAction) :
    countTerminal (acts.flatMap actionEvents) = 0 := by
  induction acts with
  | nil => rfl
  | cons a rest ih =>
      rw [List.flatMap_cons, countTerminal_append,
        countTerminal_eq_zero_of_not_terminal _ (actionEvents_not_terminal a), ih]

theorem dispatch_not_terminal (s : UIState) (e : WorkerEvent) (he : isTerminal e = false) :
    (dispatch s e).start_enabled = s.start_enabled ∧
      (dispatch s e).job_active = s.job_active := by
  cases e with
  | progress v d => exact ⟨rfl, rfl⟩
  | log t => exact ⟨rfl, rfl⟩
  | finished => simp [isTerminal] at he
  | error m => simp [isTerminal] at he

theorem dispatch_terminal (s : UIState) (e : WorkerEvent) (he : isTerminal e = true) :
    (dispatch s e).start_enabled = true ∧ (dispatch s e).job_active = false := by
  cases e with
  | progress v d => simp [isTerminal] at he
  | log t => simp [isTerminal] at he
  | finished =>
      constructor
      · simp only [dispatch, on_finished]
        split <;> rfl
      · simp only [dispatch, on_finished, append_log]
        split
        · rfl
        · next h => simpa [append_log] using h
  | error m =>
      constructor
      · simp only [dispatch, on_error]
        split <;> rfl
      · simp only [dispatch, on_error, append_log]
        split
        · rfl
        · next h => simpa [append_log] using h

theorem foldl_dispatch_not_terminal (es : List WorkerEvent)
    (h : ∀ e ∈ es, isTerminal e = false) (s : UIState) :
    (List.foldl dispatch s es).start_enabled = s.start_enabled ∧
      (List.foldl dispatch s es).job_active = s.job_active ∧
      countEnables s es = 0 := by
  induction es generalizing s with
  | nil => exact ⟨rfl, rfl, rfl⟩
  | cons e rest ih =>
      have he := h e (List.mem_cons_self e rest)
      obtain ⟨h1, h2⟩ := dispatch_not_terminal s e he
      obtain ⟨g1, g2, g3⟩ := ih (fun x hx => h x (List.mem_cons_of_mem e hx)) (dispatch s e)
      refine ⟨by rw [List.foldl_cons, g1, h1], by rw [List.foldl_cons, g2, h2], ?_⟩
      rw [countEnables, g3]
      have : ¬(s.start_enabled = false ∧ (dispatch s e).start_enabled = true) := by
        rw [h1]
        rintro ⟨hf, ht⟩
        rw [hf] at ht
        exact Bool.false_ne_true ht
      simp [this]

theorem countEnables_append (xs ys : List WorkerEvent) (s : UIState) :
    countEnables s (xs ++ ys) =
      countEnables s xs + countEnables (List.foldl dispatch s xs) ys := by
  induction xs generalizing s with
  | nil => simp [countEnables]
  | cons e rest ih =>
      rw [List.cons_append, countEnables, countEnables, ih (dispatch s e), List.foldl_cons]
      omega

theorem flatMap_actionEvents_not_terminal (acts : List EngineAction) :
    ∀ e ∈ acts.flatMap actionEvents, isTerminal e = false := by
  intro e he
  rw [List.mem_flatMap] at he
  obtain ⟨a, _, hea⟩ := he
  exact actionEvents_not_terminal a e hea

theorem run_trace (eng : EngineRun) (s : UIState) (hs : s.start_enabled = false) :
    countEnables s (YTD.run eng) = 1 ∧
      (List.foldl dispatch s (YTD.run eng)).start_enabled = true ∧
      (List.foldl dispatch s (YTD.run eng)).job_active = false := by
  set term : WorkerEvent :=
    (match eng.failure with
     | none => WorkerEvent.finished
     | some m => WorkerEvent.error m) with hterm
  have hterm_t : isTerminal term = true := by
    rw [hterm]
    cases eng.failure <;> rfl
  have hrun : YTD.run eng =
      (WorkerEvent.log "정보 수집 중".toList :: eng.actions.flatMap actionEvents) ++ [term] := by
    simp [YTD.run, hterm]
  set pre : List WorkerEvent :=
    WorkerEvent.log "정보 수집 중".toList :: eng.actions.flatMap actionEvents with hpre
  have hpre_nt : ∀ e ∈ pre, isTerminal e = false := by
    intro e he
    rw [hpre, List.mem_cons] at he
    rcases he with he | he
    · rw [he]; rfl
    · exact flatMap_actionEvents_not_terminal eng.actions e he
  obtain ⟨p1, p2, p3⟩ := foldl_dispatch_not_terminal pre hpre_nt s
  obtain ⟨t1, t2⟩ := dispatch_terminal (List.foldl dispatch s pre) term hterm_t
  have hmid : (List.foldl dispatch s pre).start_enabled = false := by rw [p1, hs]
  refine ⟨?_, ?_, ?_⟩
  · rw [hrun, countEnables_append, p3, countEnables, countEnables, hmid, t1]
    simp
  · rw [hrun, List.foldl_append, List.foldl_cons, List.foldl_nil]
    exact t1
  · rw [hrun, List.foldl_append, List.foldl_cons, List.foldl_nil]
    exact t2

/-! Helper lemmas about the progress hook, and a spec-side percent. -/

theorem progress_hook_downloading (d : ProgressPayload)
    (hs : d.status = some "downloading".toList) :
    progress_hook d =
      some ((if totalOf d ≠ 0 then downloadedOf d * 100 / totalOf d else 0),
        pyStrip (playlistMark d.info_dict ++ speedPart d.speed ++ etaPart d.eta)) := by
  simp [progress_hook, hs]

theorem progress_hook_finished (d : ProgressPayload)
    (hs : d.status = some "finished".toList) :
    progress_hook d =
      some (100, pyStrip (playlistMark d.info_dict ++ "병합 중".toList)) := by
  have hne : ¬ d.status = some "downloading".toList := by
    rw [hs]; decide
  unfold progress_hook
  rw [if_neg hne, if_pos hs]

theorem progress_hook_other (d : ProgressPayload)
    (h1 : d.status ≠ some "downloading".toList)
    (h2 : d.status ≠ some "finished".toList) :
    progress_hook d = none := by
  unfold progress_hook
  rw [if_neg h1, if_neg h2]

/-- Keep only a known positive value; `none` means "no usable total". -/
def posOpt (o : Option Nat) : Option Nat :=
  match o with
  | some t => if t = 0 then none else some t
  | none => none

/-- Stated from the specification's wording (the refinement side of C3
and C10): the known total for a downloading payload is `total_bytes` or,
when that is absent or unusable, `total_bytes_estimate`; `none` when no
total is known. -/
def specTotal (d : ProgressPayload) : Option Nat :=
  (posOpt d.total_bytes).orElse (fun _ => posOpt d.total_bytes_estimate)

/-- Stated from the specification's wording: percent is
`floor(downloaded*100/total)` when a total is known, else `0`. -/
def specPercent (d : ProgressPayload) : Nat :=
  match specTotal d with
  | some t => downloadedOf d * 100 / t
  | none => 0

theorem specPercent_eq_code (d : ProgressPayload) :
    specPercent d = if totalOf d ≠ 0 then downloadedOf d * 100 / totalOf d else 0 := by
  unfold specPercent specTotal posOpt totalOf
  rcases d.total_bytes with _ | t
  · rcases d.total_bytes_estimate with _ | u
    · simp [Option.orElse]
    · by_cases hu : u = 0 <;> simp [Option.orElse, hu]
  · by_cases ht : t = 0
    · rcases d.total_bytes_estimate with _ | u
      · simp [Option.orElse, ht]
      · by_cases hu : u = 0 <;> simp [Option.orElse, ht, hu]
    · simp [Option.orElse, ht]

/-! Concrete payloads and an initial window state used as witnesses. -/

/-- Downloading payload with `total_bytes = 1000`, `downloaded_bytes = 500`. -/
def exHalf : ProgressPayload :=
  ⟨some "downloading".toList, some 1000, none, some 500, none, none, none⟩

/-- Downloading payload with neither `total_bytes` nor `total_bytes_estimate`. -/
def exNoTotal : ProgressPayload :=
  ⟨some "downloading".toList, none, none, some 500, none, none, none⟩

/-- Downloading payload whose downloaded bytes exceed the reported total. -/
def exOver : ProgressPayload :=
  ⟨some "downloading".toList, some 1000, none, some 2000, none, none, none⟩

/-- Downloading payload of a playlist item 2 of 5, with speed and ETA. -/
def exPlaylist : ProgressPayload :=
  ⟨some "downloading".toList, some 1000, none, some 500, some 204800, some 12,
    some ⟨some 2, some 5⟩⟩

/-- A `finished`-status payload (stream done, merge pending). -/
def exMergePending : ProgressPayload :=
  ⟨some "finished".toList, none, none, none, none, none, none⟩

/-- Downloading payload with no `downloaded_bytes` key. -/
def exNoDownloaded : ProgressPayload :=
  ⟨some "downloading".toList, some 1000, none, none, none, none, none⟩

/-- A payload whose status is neither `downloading` nor `finished`. -/
def exOtherStatus : ProgressPayload :=
  ⟨some "error".toList, none, none, none, none, none, none⟩

/-- The window state right after construction: start button enabled,
progress 0, status label "대기 중", empty log, no live thread. -/
def idleState : UIState := ⟨true, 0, "대기 중".toList, [], false⟩

/-- Number of terminal signals `DownloadWorker.run` emits, shared shape of
claims C1 and C2. -/
theorem run_one_terminal (eng : EngineRun) : countTerminal (YTD.run eng) = 1 := by
  have hrun : YTD.run eng =
      (WorkerEvent.log "정보 수집 중".toList :: eng.actions.flatMap actionEvents) ++
        [match eng.failure with
         | none => WorkerEvent.finished
         | some m => WorkerEvent.error m] := by
    simp [YTD.run]
  rw [hrun, countTerminal_append]
  have h1 : countTerminal
      (WorkerEvent.log "정보 수집 중".toList :: eng.actions.flatMap actionEvents) = 0 := by
    have := countTerminal_flatMap eng.actions
    simp [countTerminal, List.filter_cons, isTerminal] at this ⊢
    exact this
  have h2 : countTerminal
      [match eng.failure with
       | none => WorkerEvent.finished
       | some m => WorkerEvent.error m] = 1 := by
    cases eng.failure <;> rfl
  rw [h1, h2]

/-! The claims. -/

/-- Claim C1: for every started job — every invocation of
`DownloadWorker.run`, whatever callback/logger actions the engine performs
and whether or not it raises — exactly one terminal signal is emitted:
either `finished` or `error`, never zero of them and never more than one. -/
theorem claim_C1_exactly_one_terminal (eng : EngineRun) :
    countTerminal (YTD.run eng) = 1 :=
  run_one_terminal eng

/-- Claim C2: every exception raised during the blocking engine call is
caught at the outermost call and reported as the failure terminal signal
carrying `str(exception)` verbatim; the failure is the run's last event and
its only terminal event (no retry), and dispatching it to the controller's
`on_error` slot re-enables the start control. -/
theorem claim_C2_failure_terminal (eng : EngineRun) (msg : Chars) (s : UIState)
    (h : eng.failure = some msg) :
    (YTD.run eng).getLast? = some (WorkerEvent.error msg) ∧
      countTerminal (YTD.run eng) = 1 ∧
      (dispatch s (WorkerEvent.error msg)).start_enabled = true := by
  have hrun : YTD.run eng =
      (WorkerEvent.log "정보 수집 중".toList :: eng.actions.flatMap actionEvents) ++
        [WorkerEvent.error msg] := by
    simp [YTD.run, h]
  refine ⟨?_, run_one_terminal eng, ?_⟩
  · rw [hrun, List.getLast?_concat]
  · simp only [dispatch, on_error]
    split <;> rfl

/-- Witness for C2 at a concrete failing engine run. -/
theorem claim_C2_failure_terminal_witness :
    (YTD.run ⟨[], some "boom".toList⟩).getLast? =
        some (WorkerEvent.error "boom".toList) ∧
      countTerminal (YTD.run ⟨[], some "boom".toList⟩) = 1 ∧
      (dispatch idleState (WorkerEvent.error "boom".toList)).start_enabled = true :=
  claim_C2_failure_terminal ⟨[], some "boom".toList⟩ "boom".toList idleState rfl

/-- Claim C3: on every `downloading` payload the emitted percent equals the
specification's formula — `floor(downloaded*100/total)` with `total_bytes`
taking priority and `total_bytes_estimate` as fallback, `0` when no total is
known (`specPercent`) — and in particular total 1000 with downloaded 500
yields 50, and a payload with neither total field yields 0. -/
theorem claim_C3_percent_formula :
    (∀ d p a, d.status = some "downloading".toList →
        progress_hook d = some (p, a) → p = specPercent d) ∧
      (progress_hook exHalf).map Prod.fst = some 50 ∧
      (progress_hook exNoTotal).map Prod.fst = some 0 := by
  refine ⟨?_, by decide, by decide⟩
  intro d p a hs h
  rw [progress_hook_downloading d hs, Option.some_inj, Prod.mk.injEq] at h
  rw [specPercent_eq_code]
  exact h.1.symm

/-- Witness for C3's universally quantified part at the half-done payload. -/
theorem claim_C3_percent_formula_witness : 50 = specPercent exHalf :=
  claim_C3_percent_formula.1 exHalf 50 [] (by decide) (by decide)

/-- Claim C4: when the merge capability (ffmpeg) is unavailable, the format
selection passed to the engine is exactly the single pre-muxed
`best[ext=mp4]/best` string — it contains no `+` (yt-dlp's
separate-video-plus-audio combination operator) — and no merge output
format is requested. -/
theorem claim_C4_no_merge_format (output_dir : Chars) :
    (buildOpts output_dir false).format = "best[ext=mp4]/best".toList ∧
      '+' ∉ (buildOpts output_dir false).format ∧
      (buildOpts output_dir false).merge_output_format = none := by
  have hf : (buildOpts output_dir false).format = "best[ext=mp4]/best".toList := rfl
  refine ⟨hf, ?_, rfl⟩
  rw [hf]
  decide

/-- Claim C5: for every input with an empty (stripped) URL, or an empty,
non-existent or non-directory destination, `on_start` shows a warning
dialog and returns with the window state exactly as it was: no job and no
worker thread are created, and the start control keeps its prior
(enabled) state. -/
theorem claim_C5_invalid_input_rejected (isdir : Chars → Bool) (ffmpeg : Bool)
    (urlText pathText : Chars) (s : UIState)
    (h : pyStrip urlText = [] ∨ pyStrip pathText = [] ∨
      isdir (pyStrip pathText) = false) :
    ∃ w, on_start isdir ffmpeg urlText pathText s =
      { job := none, warning := some w, state := s } := by
  by_cases hu : pyStrip urlText = []
  · exact ⟨"URL을 입력하세요.".toList, by simp [on_start, hu]⟩
  by_cases hp : pyStrip pathText = []
  · exact ⟨"다운로드 폴더를 선택하세요.".toList, by simp [on_start, hu, hp]⟩
  have hd : isdir (pyStrip pathText) = false := by
    rcases h with h | h | h
    · exact absurd h hu
    · exact absurd h hp
    · exact h
  exact ⟨"유효한 폴더가 아닙니다.".toList, by simp [on_start, hu, hp, hd]⟩

/-- Witness for C5: an empty URL against an all-accepting filesystem. -/
theorem claim_C5_invalid_input_rejected_witness :
    ∃ w, on_start (fun _ => true) true [] ['a'] idleState =
      { job := none, warning := some w, state := idleState } :=
  claim_C5_invalid_input_rejected (fun _ => true) true [] ['a'] idleState
    (Or.inl rfl)

/-- The window state `on_start` installs on a valid start. -/
def startedState (s : UIState) : UIState :=
  { s with
    start_enabled := false
    progress_value := 0
    status_text := "시작 중".toList
    log_lines := []
    job_active := true }

/-- Claim C6: on every valid input (non-empty stripped URL, existing
directory) `on_start` disables the start control, resets the progress
display to 0, clears the log view and launches exactly one job; over any
subsequent engine behaviour, dispatching the worker's events re-enables the
start control exactly once — at the terminal event — and at that point the
thread/worker handles are released. -/
theorem claim_C6_start_lifecycle (isdir : Chars → Bool) (ffmpeg : Bool)
    (urlText pathText : Chars) (s : UIState) (eng : EngineRun)
    (hu : pyStrip urlText ≠ []) (hp : pyStrip pathText ≠ [])
    (hd : isdir (pyStrip pathText) = true) :
    on_start isdir ffmpeg urlText pathText s =
        { job := some
            { url := pyStrip urlText
              output_dir := pyStrip pathText
              ffmpeg_available := ffmpeg }
          warning := none
          state := startedState s } ∧
      (startedState s).start_enabled = false ∧
      (startedState s).progress_value = 0 ∧
      (startedState s).log_lines = [] ∧
      countEnables (startedState s) (YTD.run eng) = 1 ∧
      (List.foldl dispatch (startedState s) (YTD.run eng)).start_enabled = true ∧
      (List.foldl dispatch (startedState s) (YTD.run eng)).job_active = false := by
  obtain ⟨c1, c2, c3⟩ := run_trace eng (startedState s) rfl
  refine ⟨?_, rfl, rfl, rfl, c1, c2, c3⟩
  simp [on_start, hu, hp, hd, startedState]

/-- Witness for C6 at a concrete URL, path, window state and engine run. -/
theorem claim_C6_start_lifecycle_witness :
    on_start (fun _ => true) true "u".toList "/d".toList idleState =
        { job := some
            { url := "u".toList
              output_dir := "/d".toList
              ffmpeg_available := true }
          warning := none
          state := startedState idleState } ∧
      (startedState idleState).start_enabled = false ∧
      (startedState idleState).progress_value = 0 ∧
      (startedState idleState).log_lines = [] ∧
      countEnables (startedState idleState) (YTD.run ⟨[], none⟩) = 1 ∧
      (List.foldl dispatch (startedState idleState)
        (YTD.run ⟨[], none⟩)).start_enabled = true ∧
      (List.foldl dispatch (startedState idleState)
        (YTD.run ⟨[], none⟩)).job_active = false := by
  have h := claim_C6_start_lifecycle (fun _ => true) true "u".toList "/d".toList
    idleState ⟨[], none⟩ (by decide) (by decide) rfl
  simpa using h

/-! Helper lemmas about the playlist marker and description heads. -/

theorem playlistMark_of (info : Option InfoDict) (pi pc : Int)
    (h1 : (info.getD default).playlist_index = some pi)
    (h2 : (info.getD default).playlist_count = some pc) (h3 : 0 < pc) :
    playlistMark info =
      '[' :: (intChars pi ++ '/' :: (intChars pc ++ [']', ' '])) := by
  simp [playlistMark, h1, h2, h3]

theorem playlistMark_shape (info : Option InfoDict) :
    playlistMark info = [] ∨ ∃ r, playlistMark info = '[' :: r := by
  cases hpi : (info.getD default).playlist_index with
  | none => left; simp [playlistMark, hpi]
  | some pi =>
      cases hpc : (info.getD default).playlist_count with
      | none => left; simp [playlistMark, hpi, hpc]
      | some pc =>
          by_cases h : pc > 0
          · right
            exact ⟨intChars pi ++ '/' :: (intChars pc ++ [']', ' ']),
              by simp [playlistMark, hpi, hpc, h]⟩
          · left; simp [playlistMark, hpi, hpc, h]

theorem progress_hook_some_desc (d : ProgressPayload) (p : Nat) (a : Chars)
    (h : progress_hook d = some (p, a)) :
    ∃ rest, a = pyStrip (playlistMark d.info_dict ++ rest) := by
  by_cases hs : d.status = some "downloading".toList
  · rw [progress_hook_downloading d hs, Option.some_inj, Prod.mk.injEq] at h
    exact ⟨speedPart d.speed ++ etaPart d.eta, by rw [← h.2]; simp⟩
  by_cases hf : d.status = some "finished".toList
  · rw [progress_hook_finished d hf, Option.some_inj, Prod.mk.injEq] at h
    exact ⟨"병합 중".toList, h.2.symm⟩
  · rw [progress_hook_other d hs hf] at h; cases h

theorem speedEta_shape (sp : Option Nat) (et : Option Int) :
    speedPart sp ++ etaPart et = [] ∨
      ∃ c t, speedPart sp ++ etaPart et = c :: t ∧ c ≠ '[' ∧
        c.isWhitespace = false := by
  have heta : ∀ e : Int, etaPart (some e) = 'E' :: ("TA ".toList ++ intChars e ++ ['s']) := by
    intro e
    simp [etaPart]
  rcases sp with _ | s
  · rcases et with _ | e
    · left; rfl
    · right
      exact ⟨'E', "TA ".toList ++ intChars e ++ ['s'],
        by rw [show speedPart none = [] from rfl, List.nil_append, heta e], by decide,
        by decide⟩
  · by_cases hs : s = 0
    · rcases et with _ | e
      · left; simp [speedPart, etaPart, hs]
      · right
        refine ⟨'E', "TA ".toList ++ intChars e ++ ['s'], ?_, by decide, by decide⟩
        rw [show speedPart (some s) = [] by simp [speedPart, hs], List.nil_append, heta e]
    · obtain ⟨c, t, hct, hc, hw⟩ := natChars_head_not_bracket (s / 1024)
      right
      refine ⟨c, t ++ " KB/s ".toList ++ etaPart et, ?_, hc, hw⟩
      rw [show speedPart (some s) = natChars (s / 1024) ++ " KB/s ".toList by
        simp [speedPart, hs], hct]
      simp

theorem no_bracket_start_of_shape (x : Chars)
    (h : x = [] ∨ ∃ c t, x = c :: t ∧ c ≠ '[' ∧ c.isWhitespace = false) :
    startsWithL ['['] (pyStrip x) = false := by
  rcases h with h | ⟨c, t, hx, hc, hw⟩
  · rw [h]; rfl
  · rw [hx, pyStrip_cons_of_not_ws t hw]
    exact startsWithL_cons_of_ne (Ne.symm hc) _

/-- Claim C7: every progress signal from a payload carrying playlist
metadata (`playlist_index` and a positive `playlist_count`) has its
description prefixed with the `[index/count]` marker; index 2 of count 5
yields a description starting with `[2/5]`; and a payload with no playlist
metadata never produces a description starting with `[`. -/
theorem claim_C7_playlist_marker :
    (∀ d pi pc p a,
        (d.info_dict.getD default).playlist_index = some pi →
        (d.info_dict.getD default).playlist_count = some pc → 0 < pc →
        progress_hook d = some (p, a) →
        startsWithL ('[' :: (intChars pi ++ '/' :: (intChars pc ++ [']']))) a = true) ∧
      (∀ d p a, d.info_dict = none → progress_hook d = some (p, a) →
        startsWithL ['['] a = false) ∧
      (progress_hook exPlaylist).map (fun q => startsWithL "[2/5]".toList q.2) =
        some true := by
  refine ⟨?_, ?_, by decide⟩
  · intro d pi pc p a h1 h2 h3 h
    obtain ⟨rest, hrest⟩ := progress_hook_some_desc d p a h
    rw [playlistMark_of d.info_dict pi pc h1 h2 h3] at hrest
    obtain ⟨t, ht⟩ :=
      @rstrip_marked ('[' :: (intChars pi ++ '/' :: intChars pc)) (' ' :: rest) ']'
        (by decide)
    have hshape : ('[' :: (intChars pi ++ '/' :: (intChars pc ++ [']', ' ']))) ++ rest =
        (('[' :: (intChars pi ++ '/' :: intChars pc)) ++ [']']) ++ (' ' :: rest) := by
      simp
    rw [hshape] at hrest
    rw [pyStrip, ht] at hrest
    have hlst : lstrip ((('[' :: (intChars pi ++ '/' :: intChars pc)) ++ [']']) ++ t) =
        (('[' :: (intChars pi ++ '/' :: intChars pc)) ++ [']']) ++ t := by
      rw [show (('[' :: (intChars pi ++ '/' :: intChars pc)) ++ [']']) ++ t =
          '[' :: ((intChars pi ++ '/' :: intChars pc) ++ [']'] ++ t) by simp]
      rw [lstrip_cons_of_not_ws _ (by decide)]
    rw [hrest, hlst]
    rw [show ('[' :: (intChars pi ++ '/' :: (intChars pc ++ [']']))) =
        ('[' :: (intChars pi ++ '/' :: intChars pc)) ++ [']'] by simp]
    exact startsWithL_append _ t
  · intro d p a hinfo h
    have hmark : playlistMark d.info_dict = [] := by rw [hinfo]; rfl
    by_cases hs : d.status = some "downloading".toList
    · rw [progress_hook_downloading d hs, Option.some_inj, Prod.mk.injEq] at h
      rw [← h.2, hmark, List.nil_append]
      exact no_bracket_start_of_shape _ (speedEta_shape d.speed d.eta)
    by_cases hf : d.status = some "finished".toList
    · rw [progress_hook_finished d hf, Option.some_inj, Prod.mk.injEq] at h
      rw [← h.2, hmark, List.nil_append]
      exact no_bracket_start_of_shape _ (Or.inr ⟨'병', "합 중".toList, by decide, by decide,
        by decide⟩)
    · rw [progress_hook_other d hs hf] at h; cases h

/-- Witness for C7's marker part at playlist item 2 of 5. -/
theorem claim_C7_playlist_marker_witness :
    startsWithL ('[' :: (intChars 2 ++ '/' :: (intChars 5 ++ [']'])))
      "[2/5] 200 KB/s ETA 12s".toList = true :=
  claim_C7_playlist_marker.1 exPlaylist 2 5 50 "[2/5] 200 KB/s ETA 12s".toList
    rfl rfl (by decide) (by decide)

/-- Counterexample to claim C8 as stated: the hook performs no clamping, so
a downloading payload whose `downloaded_bytes` (2000) exceed its
`total_bytes` (1000) — as happens when the engine's total is an estimate —
produces a percent of 200, outside the claimed 0–100 range. -/
theorem claim_C8_cex : progress_hook exOver = some (200, []) ∧ ¬ (200 ≤ 100) := by
  exact ⟨by decide, by decide⟩

/-- Claim C8 as amended: the emitted percent is a natural number, and is at
most 100 on every payload whose reported downloaded bytes do not exceed the
selected total (and on every `finished`-status payload); only a payload with
`downloaded_bytes` above the total can push it beyond 100. -/
theorem claim_C8_percent_range (d : ProgressPayload) (p : Nat) (a : Chars)
    (h : progress_hook d = some (p, a)) (hle : downloadedOf d ≤ totalOf d) :
    p ≤ 100 := by
  by_cases hs : d.status = some "downloading".toList
  · rw [progress_hook_downloading d hs, Option.some_inj, Prod.mk.injEq] at h
    rw [← h.1]
    by_cases ht : totalOf d = 0
    · simp [ht]
    · rw [if_pos ht]
      calc downloadedOf d * 100 / totalOf d
          ≤ totalOf d * 100 / totalOf d :=
            Nat.div_le_div_right (Nat.mul_le_mul_right 100 hle)
        _ = 100 := by
            rw [Nat.mul_comm]
            exact Nat.mul_div_cancel 100 (Nat.pos_of_ne_zero ht)
  by_cases hf : d.status = some "finished".toList
  · rw [progress_hook_finished d hf, Option.some_inj, Prod.mk.injEq] at h
    omega
  · rw [progress_hook_other d hs hf] at h; cases h

/-- Witness for the amended C8 at the half-done payload. -/
theorem claim_C8_percent_range_witness : (50 : Nat) ≤ 100 :=
  claim_C8_percent_range exHalf 50 [] (by decide) (by decide)

/-- Claim C9: every `finished`-status payload (stream done, merge pending)
produces a progress signal with percent 100 and a non-empty description
ending in the merge-pending marker `병합 중`, distinguishable from the
job's true completion — the terminal success signal, which is the bare
`finished` event carrying no description at all. -/
theorem claim_C9_merge_pending (d : ProgressPayload) (p : Nat) (a : Chars)
    (hs : d.status = some "finished".toList) (h : progress_hook d = some (p, a)) :
    p = 100 ∧ a ≠ [] ∧ endsWithL "병합 중".toList a = true ∧
      (∀ eng : EngineRun, eng.failure = none →
        (YTD.run eng).getLast? = some WorkerEvent.finished) := by
  rw [progress_hook_finished d hs, Option.some_inj, Prod.mk.injEq] at h
  have hA : a = pyStrip (playlistMark d.info_dict ++ "병합 중".toList) := h.2.symm
  have hval : a = playlistMark d.info_dict ++ "병합 중".toList := by
    rw [hA]
    have hr : rstrip (playlistMark d.info_dict ++ "병합 중".toList) =
        playlistMark d.info_dict ++ "병합 중".toList := by
      rw [show playlistMark d.info_dict ++ "병합 중".toList =
          (playlistMark d.info_dict ++ "병합 ".toList) ++ ['중'] by simp]
      rw [rstrip_concat_of_not_ws _ (by decide)]
    rw [pyStrip, hr]
    rcases playlistMark_shape d.info_dict with hm | ⟨r, hm⟩
    · rw [hm, List.nil_append]
      exact lstrip_cons_of_not_ws _ (by decide)
    · rw [hm, List.cons_append]
      exact lstrip_cons_of_not_ws _ (by decide)
  refine ⟨h.1.symm, ?_, ?_, ?_⟩
  · rw [hval]
    rcases playlistMark_shape d.info_dict with hm | ⟨r, hm⟩ <;> rw [hm] <;> simp
  · rw [hval]
    exact endsWithL_append _ _
  · intro eng hfail
    have hrun : YTD.run eng =
        (WorkerEvent.log "정보 수집 중".toList :: eng.actions.flatMap actionEvents) ++
          [WorkerEvent.finished] := by
      simp [YTD.run, hfail]
    rw [hrun, List.getLast?_concat]

/-- Witness for C9 at a plain finished payload. -/
theorem claim_C9_merge_pending_witness :
    (100 : Nat) = 100 ∧ "병합 중".toList ≠ [] ∧
      endsWithL "병합 중".toList "병합 중".toList = true ∧
      (∀ eng : EngineRun, eng.failure = none →
        (YTD.run eng).getLast? = some WorkerEvent.finished) :=
  claim_C9_merge_pending exMergePending 100 "병합 중".toList (by decide) (by decide)

/-- Claim C10: the hook is total over arbitrary payloads — a status other
than `downloading`/`finished` emits nothing; a downloading payload whose
`total_bytes` and `total_bytes_estimate` are both missing, `None`-like or
zero never divides by zero and reports percent 0; and a missing
`downloaded_bytes` is treated as 0 (hence percent 0). -/
theorem claim_C10_hook_guards :
    (∀ d, d.status ≠ some "downloading".toList → d.status ≠ some "finished".toList →
        progress_hook d = none) ∧
      (∀ d p a, d.status = some "downloading".toList →
        (d.total_bytes = none ∨ d.total_bytes = some 0) →
        (d.total_bytes_estimate = none ∨ d.total_bytes_estimate = some 0) →
        progress_hook d = some (p, a) → p = 0) ∧
      (∀ d p a, d.status = some "downloading".toList → d.downloaded_bytes = none →
        progress_hook d = some (p, a) → p = 0) := by
  refine ⟨fun d h1 h2 => progress_hook_other d h1 h2, ?_, ?_⟩
  · intro d p a hs htb hte h
    rw [progress_hook_downloading d hs, Option.some_inj, Prod.mk.injEq] at h
    have ht : totalOf d = 0 := by
      unfold totalOf
      rcases htb with htb | htb <;> rcases hte with hte | hte <;> simp [htb, hte]
    rw [← h.1, ht]
    simp
  · intro d p a hs hdl h
    rw [progress_hook_downloading d hs, Option.some_inj, Prod.mk.injEq] at h
    have hd0 : downloadedOf d = 0 := by unfold downloadedOf; rw [hdl]; rfl
    rw [← h.1, hd0]
    simp

/-- Witness for C10 at a payload with an unrecognised status, one with no
totals, and one with no downloaded count. -/
theorem claim_C10_hook_guards_witness :
    progress_hook exOtherStatus = none ∧ (0 : Nat) = 0 ∧ (0 : Nat) = 0 :=
  ⟨claim_C10_hook_guards.1 exOtherStatus (by decide) (by decide),
    claim_C10_hook_guards.2.1 exNoTotal 0 [] (by decide) (Or.inl rfl) (Or.inl rfl)
      (by decide),
    claim_C10_hook_guards.2.2 exNoDownloaded 0 [] (by decide) rfl (by decide)⟩

end YTD
